import Mathlib

/-!
Shallow embedding of `google/cloud/storage/parallel_upload.cc`: the
non-resumable parallel upload coordinator
(`NonResumableParallelUploadState::Impl`), the per-shard stream buffer
(`ParallelObjectWriteStreambuf`) and the per-shard file reader
(`ParallelUploadFileShard`).

The coordinator is a lock-guarded mutable state; here it is a pure state
type `ImplState` and every member function is a pure function from the
old state to the new state, paired with the externally visible effects it
produces (`Event`s: composer invocations, promise deliveries, deleter
executions, stream creations) and with its return value.  External
collaborators (the transport session factory, the local file stream, the
composer and the deleter) enter as explicit parameters carrying their
outcomes.  `std::size_t` arithmetic on `num_unfinished_streams_` is
modelled on `Nat` with an explicit `% 2 ^ 64`.
-/

namespace PUpload

/-- Status codes used by the translated code (`StatusCode` in the source).
`kOther` stands for any further code. -/
inductive StatusCode where
  | kOk
  | kCancelled
  | kNotFound
  | kInternal
  | kFailedPrecondition
  | kOther (n : Nat)
deriving DecidableEq, Repr

/-- `google::cloud::Status`: a code and a message. -/
structure Status where
  code : StatusCode
  message : String
deriving DecidableEq, Repr

/-- The default-constructed, successful `Status()`. -/
def statusOk : Status := ⟨StatusCode.kOk, ""⟩

/-- The slice of `ObjectMetadata` the translated code reads:
`metadata.name()` and `metadata.generation()`. -/
structure ObjectMetadata where
  name : String
  generation : Int
deriving DecidableEq, Repr

/-- `ResumableUploadResponse` as used by `StreamFinished`: the code only
dereferences `response->payload` (an `ObjectMetadata`). -/
structure ResumableUploadResponse where
  payload : ObjectMetadata
deriving DecidableEq, Repr

/-- `ComposeSourceObject{metadata.name(), metadata.generation(), {}}`:
the third member is default-constructed (modelled as `none`). -/
structure ComposeSourceObject where
  objectName : String
  generation : Int
  ifGenerationMatch : Option Int
deriving DecidableEq, Repr

/-- A default-constructed `ComposeSourceObject` (what `std::vector::resize`
fills fresh slots with). -/
instance : Inhabited ComposeSourceObject := ⟨⟨"", 0, none⟩⟩

instance : DecidableEq (Except Status ObjectMetadata) := fun a b =>
  match a, b with
  | Except.ok x, Except.ok y =>
      if h : x = y then isTrue (by rw [h]) else isFalse (by intro hh; cases hh; exact h rfl)
  | Except.error x, Except.error y =>
      if h : x = y then isTrue (by rw [h]) else isFalse (by intro hh; cases hh; exact h rfl)
  | Except.ok _, Except.error _ => isFalse (by intro hh; cases hh)
  | Except.error _, Except.ok _ => isFalse (by intro hh; cases hh)

instance : DecidableEq (Except Status ResumableUploadResponse) := fun a b =>
  match a, b with
  | Except.ok x, Except.ok y =>
      if h : x = y then isTrue (by rw [h]) else isFalse (by intro hh; cases hh; exact h rfl)
  | Except.error x, Except.error y =>
      if h : x = y then isTrue (by rw [h]) else isFalse (by intro hh; cases hh; exact h rfl)
  | Except.ok _, Except.error _ => isFalse (by intro hh; cases hh)
  | Except.error _, Except.ok _ => isFalse (by intro hh; cases hh)

instance : DecidableEq (Except Status Unit) := fun a b =>
  match a, b with
  | Except.ok x, Except.ok y =>
      if h : x = y then isTrue (by rw [h]) else isFalse (by intro hh; cases hh; exact h rfl)
  | Except.error x, Except.error y =>
      if h : x = y then isTrue (by rw [h]) else isFalse (by intro hh; cases hh; exact h rfl)
  | Except.ok _, Except.error _ => isFalse (by intro hh; cases hh)
  | Except.error _, Except.ok _ => isFalse (by intro hh; cases hh)

/-- Externally visible effects of a coordinator operation. -/
inductive Event where
  | streamCreated (idx : Nat)
  | composeCall (args : List ComposeSourceObject)
  | deliver (waiter : Nat) (value : Except Status ObjectMetadata)
  | executeDelete
deriving DecidableEq, Repr

/-- True on `Event.composeCall`. -/
def Event.isCompose : Event → Bool
  | Event.composeCall _ => true
  | _ => false

/-- `std::size_t` has 64 bits on the targeted platforms. -/
def SIZE_T_MOD : Nat := 2 ^ 64

/-- `++` on a `std::size_t`. -/
def szInc (n : Nat) : Nat := (n + 1) % SIZE_T_MOD

/-- `--` on a `std::size_t` (wraps around at zero). -/
def szDec (n : Nat) : Nat := (n + (SIZE_T_MOD - 1)) % SIZE_T_MOD

/-- The `composer_` capability: a function from the `to_compose_` vector
to a `StatusOr<ObjectMetadata>`. -/
def Composer : Type := List ComposeSourceObject → Except Status ObjectMetadata

/-- The mutable members of `NonResumableParallelUploadState::Impl`.
`res` is `res_ : optional<StatusOr<ObjectMetadata>>`; `deleterPresent`
tracks whether `deleter_` is non-null, `deleterItems` the objects passed
to `deleter_->Add`; `resPromises` holds the identities of pending
promises in `res_promises_`, `nextPromiseId` generates fresh ones. -/
structure ImplState where
  res : Option (Except Status ObjectMetadata)
  finished : Bool
  numUnfinishedStreams : Nat
  toCompose : List ComposeSourceObject
  deleterPresent : Bool
  deleterItems : List ObjectMetadata
  cleanupStatus : Status
  resPromises : List Nat
  nextPromiseId : Nat
deriving DecidableEq, Repr

/-- The `Impl` constructor: value-initialized `finished_` and
`num_unfinished_streams_`, empty vectors, a live deleter. -/
def initialState : ImplState :=
  { res := none
    finished := false
    numUnfinishedStreams := 0
    toCompose := []
    deleterPresent := true
    deleterItems := []
    cleanupStatus := statusOk
    resPromises := []
    nextPromiseId := 0 }

/-- `Impl::CreateStream`, given the outcome of
`raw_client.CreateResumableSession(request)`.  On failure the code does
`res_ = session.status()` (an unconditional assignment) and returns the
status; on success it wraps a `ParallelObjectWriteStreambuf` whose index
is the post-incremented `num_unfinished_streams_`.  The returned `Nat`
is that stream index. -/
def CreateStream (sessionOutcome : Except Status Unit) (s : ImplState) :
    ImplState × List Event × Except Status Nat :=
  match sessionOutcome with
  | Except.error e => ({ s with res := some (Except.error e) }, [], Except.error e)
  | Except.ok _ =>
      ({ s with numUnfinishedStreams := szInc s.numUnfinishedStreams },
       [Event.streamCreated s.numUnfinishedStreams],
       Except.ok s.numUnfinishedStreams)

/-- `Impl::Fail`: record the status as the first error if none is
recorded yet.  (The source also `assert`s that `status` is not OK; the
assertion has no effect on the state.) -/
def Fail (status : Status) (s : ImplState) : ImplState :=
  match s.res with
  | none => { s with res := some (Except.error status) }
  | some _ => s

/-- `std::vector<ComposeSourceObject>::resize(n)` on the model list. -/
def vecResize (tc : List ComposeSourceObject) (n : Nat) : List ComposeSourceObject :=
  if n ≤ tc.length then tc.take n else tc ++ List.replicate (n - tc.length) default

/-- `ComposeSourceObject{metadata.name(), metadata.generation(), {}}`. -/
def descrOf (m : ObjectMetadata) : ComposeSourceObject := ⟨m.name, m.generation, none⟩

/-- Lines 109-111 of the source: grow `to_compose_` to
`max(size, idx + 1)` and store the shard's descriptor at `idx`. -/
def updateToCompose (tc : List ComposeSourceObject) (idx : Nat) (m : ObjectMetadata) :
    List ComposeSourceObject :=
  (vecResize tc (max tc.length (idx + 1))).set idx (descrOf m)

/-- The first half of `Impl::StreamFinished`'s critical section: record a
failed response as the first error, or record a successful response's
descriptor and hand its metadata to the deleter. -/
def recordResponse (idx : Nat) (response : Except Status ResumableUploadResponse)
    (s : ImplState) : ImplState :=
  match response with
  | Except.error e =>
      match s.res with
      | none => { s with res := some (Except.error e) }
      | some _ => s
  | Except.ok r =>
      { s with toCompose := updateToCompose s.toCompose idx r.payload
               deleterItems := s.deleterItems ++ [r.payload] }

/-- The second half of `Impl::StreamFinished`: return early while
streams are outstanding; otherwise run the composer when no error is
recorded, mark `finished_`, and satisfy every pending promise with
`*res_`. -/
def finalizeIfDone (c : Composer) (s : ImplState) : ImplState × List Event :=
  if 0 < s.numUnfinishedStreams then (s, [])
  else
    match s.res with
    | none =>
        ({ s with res := some (c s.toCompose), finished := true, resPromises := [] },
         Event.composeCall s.toCompose ::
           s.resPromises.map (fun id => Event.deliver id (c s.toCompose)))
    | some v =>
        ({ s with finished := true, resPromises := [] },
         s.resPromises.map (fun id => Event.deliver id v))

/-- `Impl::StreamFinished(stream_idx, response)`: decrement the counter,
record the response, and finalize if this was the last stream. -/
def StreamFinished (c : Composer) (idx : Nat)
    (response : Except Status ResumableUploadResponse) (s : ImplState) :
    ImplState × List Event :=
  finalizeIfDone c
    (recordResponse idx response
      { s with numUnfinishedStreams := szDec s.numUnfinishedStreams })

/-- The result of `Impl::WaitForCompletion`: an already satisfied future,
or a registered promise identified by a fresh id. -/
inductive FutureResult where
  | ready (v : Except Status ObjectMetadata)
  | pending (waiter : Nat)
deriving DecidableEq, Repr

/-- `Impl::WaitForCompletion`: a ready future holding `*res_` once
finished (the source dereferences `res_`, which is engaged whenever
`finished_` holds; the `getD` default is unreachable there), otherwise a
fresh promise appended to `res_promises_`. -/
def WaitForCompletion (s : ImplState) : ImplState × FutureResult :=
  if s.finished then
    (s, FutureResult.ready (s.res.getD (Except.error ⟨StatusCode.kOther 0, ""⟩)))
  else
    ({ s with resPromises := s.resPromises ++ [s.nextPromiseId]
              nextPromiseId := s.nextPromiseId + 1 },
     FutureResult.pending s.nextPromiseId)

/-- `Impl::EagerCleanup`, given the status `deleter_->ExecuteDelete()`
would return.  Before `finished_` it fails with `kFailedPrecondition`;
the first call afterwards runs the deleter (the `Event.executeDelete`),
stores its status and drops the deleter; later calls return the stored
status. -/
def EagerCleanup (deleteResult : Status) (s : ImplState) :
    ImplState × Status × List Event :=
  if s.finished = false then
    (s,
     ⟨StatusCode.kFailedPrecondition,
      "Attempted to cleanup parallel upload state while it is still in progress"⟩,
     [])
  else if s.deleterPresent then
    ({ s with cleanupStatus := deleteResult, deleterPresent := false },
     deleteResult, [Event.executeDelete])
  else (s, s.cleanupStatus, [])

/-- `ParallelObjectWriteStreambuf::Close`: close the underlying stream
(its outcome is the `underlying` parameter), report it to the
coordinator via `StreamFinished`, and return it. -/
def StreambufClose (c : Composer) (idx : Nat)
    (underlying : Except Status ResumableUploadResponse) (s : ImplState) :
    ImplState × List Event × Except Status ResumableUploadResponse :=
  let r := StreamFinished c idx underlying s
  (r.1, r.2, underlying)

/-- The status the `ParallelUploadFileShard` destructor injects. -/
def cancelledStatus : Status :=
  ⟨StatusCode.kCancelled,
   "Shard destroyed before calling ParallelUploadFileShard::Upload()."⟩

/-- The `Fail` call `~ParallelUploadFileShard` makes, if any:
only when the shard was not moved-from (`hasState`) and
`left_to_upload_ > 0`. -/
def shardDtorFailCall (hasState : Bool) (leftToUpload : Nat) : Option Status :=
  if hasState = true ∧ 0 < leftToUpload then some cancelledStatus else none

/-- Effect of `~ParallelUploadFileShard` on the coordinator state. -/
def shardDtor (hasState : Bool) (leftToUpload : Nat) (s : ImplState) : ImplState :=
  match shardDtorFailCall hasState leftToUpload with
  | some st => Fail st s
  | none => s

/-- One coordinator-visible operation, with the outcomes of its external
collaborators baked in. -/
inductive Op where
  | createStream (sessionOutcome : Except Status Unit)
  | streamFinished (idx : Nat) (response : Except Status ResumableUploadResponse)
  | fail (st : Status)
  | wait
  | eagerCleanup (deleteResult : Status)
  | shardDestroy (hasState : Bool) (leftToUpload : Nat)
deriving DecidableEq, Repr

/-- Apply one operation to the coordinator, keeping its events. -/
def applyOp (c : Composer) (op : Op) (s : ImplState) : ImplState × List Event :=
  match op with
  | Op.createStream o => let r := CreateStream o s; (r.1, r.2.1)
  | Op.streamFinished idx resp => StreamFinished c idx resp s
  | Op.fail st => (Fail st s, [])
  | Op.wait => ((WaitForCompletion s).1, [])
  | Op.eagerCleanup d => let r := EagerCleanup d s; (r.1, r.2.2)
  | Op.shardDestroy hs left => (shardDtor hs left s, [])

/-- Run a sequence of operations, accumulating all events in order. -/
def runOps (c : Composer) (ops : List Op) (s : ImplState) : ImplState × List Event :=
  match ops with
  | [] => (s, [])
  | op :: rest =>
      let r := applyOp c op s
      let r2 := runOps c rest r.1
      (r2.1, r.2 ++ r2.2)

/-- Exit condition of the copy loop in `ParallelUploadFileShard::Upload`. -/
inductive LoopExit where
  | fuelOut
  | readFail (iter : Nat)
  | writeFail (iter : Nat)
  | done
deriving DecidableEq, Repr

/-- True on `LoopExit.readFail`. -/
def LoopExit.isReadFail : LoopExit → Bool
  | LoopExit.readFail _ => true
  | _ => false

/-- True on `LoopExit.writeFail`. -/
def LoopExit.isWriteFail : LoopExit → Bool
  | LoopExit.writeFail _ => true
  | _ => false

/-- The `while (left_to_upload_ > 0)` loop of
`ParallelUploadFileShard::Upload`, with fuel standing for the number of
iterations still allowed (`LoopExit.fuelOut` marks that the fuel ran out,
i.e. models non-termination).  `readOk k` / `writeOk k` are
`istream.good()` / `ostream_.good()` after the `k`-th read / write.
Returns the exit condition and the final `left_to_upload_`. -/
def uploadLoopFuel (readOk writeOk : Nat → Bool) (bufSize : Nat) :
    Nat → Nat → Nat → LoopExit × Nat
  | 0, _, left => (LoopExit.fuelOut, left)
  | fuel + 1, k, left =>
      if left = 0 then (LoopExit.done, 0)
      else
        let toCopy := min left bufSize
        if readOk k = false then (LoopExit.readFail k, left)
        else if writeOk k = false then (LoopExit.writeFail k, left)
        else uploadLoopFuel readOk writeOk bufSize fuel (k + 1) (left - toCopy)

/-- Observable outcome of one `ParallelUploadFileShard::Upload` call:
the returned status, the status passed to `state_->Fail` (if any),
whether `ostream_.Close()` was invoked, and the final value of
`left_to_upload_`. -/
structure UploadOutcome where
  ret : Status
  failCalled : Option Status
  closed : Bool
  finalLeft : Nat
deriving DecidableEq, Repr

/-- The `fail` lambda in `ParallelUploadFileShard::Upload`: build the
status, call `state_->Fail(status)`, close the stream, return the
status. -/
def uploadFailStep (fileName : String) (code : StatusCode) (reason : String)
    (leftNow : Nat) : UploadOutcome :=
  let st : Status :=
    ⟨code, "ParallelUploadFileShard::Upload(" ++ fileName ++ "): " ++ reason⟩
  { ret := st, failCalled := some st, closed := true, finalLeft := leftNow }

/-- `ParallelUploadFileShard::Upload`.  `openOk` / `seekOk` are
`istream.good()` after construction and after `seekg`; `closeResult` is
`ostream_.metadata()` after the final `ostream_.Close()`.  The
write-failure branch returns its status directly, without the `fail`
helper.  The fuel `left + 1` is enough for every positive `bufSize`
(see `c10_upload_loop_terminates`). -/
def Upload (openOk seekOk : Bool) (readOk writeOk : Nat → Bool)
    (closeResult : Except Status ResumableUploadResponse)
    (fileName : String) (bufSize left : Nat) : UploadOutcome :=
  if openOk = false then
    uploadFailStep fileName StatusCode.kNotFound "cannot open upload file source" left
  else if seekOk = false then
    uploadFailStep fileName StatusCode.kInternal "file changed size during upload?" left
  else
    match uploadLoopFuel readOk writeOk bufSize (left + 1) 0 left with
    | (LoopExit.readFail _, rem) =>
        uploadFailStep fileName StatusCode.kInternal "cannot read from file source" rem
    | (LoopExit.writeFail _, rem) =>
        { ret := ⟨StatusCode.kInternal,
            "Writing to output stream failed, look into whole parallel upload status for more information"⟩
          failCalled := none, closed := false, finalLeft := rem }
    | (LoopExit.done, rem) =>
        { ret := match closeResult with | Except.ok _ => statusOk | Except.error e => e
          failCalled := none, closed := true, finalLeft := rem }
    | (LoopExit.fuelOut, rem) =>
        { ret := ⟨StatusCode.kOther 0, "loop did not terminate within fuel"⟩
          failCalled := none, closed := false, finalLeft := rem }

/-- `N` successful `CreateStream` calls. -/
def creates (n : Nat) : List Op := List.replicate n (Op.createStream (Except.ok ()))

/-- The per-shard close outcomes, reported in the order given by `is`. -/
def mkFinishes (resp : Nat → Except Status ResumableUploadResponse) (is : List Nat) :
    List (Nat × Except Status ResumableUploadResponse) :=
  is.map (fun i => (i, resp i))

/-- The `StreamFinished` operations for a list of reports. -/
def finishOps (L : List (Nat × Except Status ResumableUploadResponse)) : List Op :=
  L.map (fun p => Op.streamFinished p.1 p.2)

/-- The status of a failed response, if it failed. -/
def errOfResp : Except Status ResumableUploadResponse → Option Status
  | Except.error e => some e
  | Except.ok _ => none

/-- First-engaged-wins choice between optional statuses (the shape of
first-error-wins recording). -/
def orO : Option Status → Option Status → Option Status
  | some e, _ => some e
  | none, y => y

/-- The status of the first failed response in a report list. -/
def firstErrOf : List (Nat × Except Status ResumableUploadResponse) → Option Status
  | [] => none
  | p :: L => orO (errOfResp p.2) (firstErrOf L)

/-- The cumulative effect of a report list on `to_compose_`. -/
def applyTC (tc : List ComposeSourceObject)
    (L : List (Nat × Except Status ResumableUploadResponse)) : List ComposeSourceObject :=
  L.foldl
    (fun acc p =>
      match p.2 with
      | Except.ok r => updateToCompose acc p.1 r.payload
      | Except.error _ => acc) tc

/-- Response function where every shard closes successfully with the
given metadata. -/
def allOkResp (meta : Nat → ObjectMetadata) :
    Nat → Except Status ResumableUploadResponse :=
  fun i => Except.ok ⟨meta i⟩

/-- True on a successful `CreateStream` operation. -/
def isCreateOkOp : Op → Bool
  | Op.createStream (Except.ok _) => true
  | _ => false

/-- True on a `StreamFinished` operation. -/
def isStreamFinishedOp : Op → Bool
  | Op.streamFinished _ _ => true
  | _ => false

/-- Number of successful `CreateStream` operations in a list. -/
def countCSOk (ops : List Op) : Nat := ops.countP isCreateOkOp

/-- Number of `StreamFinished` operations in a list. -/
def countSF (ops : List Op) : Nat := ops.countP isStreamFinishedOp

/-- A whole parallel upload: `N` stream creations, one external waiter,
then all shard close reports in the order given by `order`. -/
def scenario (N : Nat) (resp : Nat → Except Status ResumableUploadResponse)
    (order : List Nat) : List Op :=
  creates N ++ Op.wait :: finishOps (mkFinishes resp order)

/-! ### Arithmetic and bookkeeping lemmas -/

theorem szInc_eq {n : Nat} (h : n + 1 < SIZE_T_MOD) : szInc n = n + 1 :=
  Nat.mod_eq_of_lt h

theorem szDec_eq {n : Nat} (h0 : 0 < n) (h1 : n < SIZE_T_MOD) : szDec n = n - 1 := by
  unfold szDec
  have hM : 1 ≤ SIZE_T_MOD := by norm_num [SIZE_T_MOD]
  have he : n + (SIZE_T_MOD - 1) = (n - 1) + SIZE_T_MOD := by omega
  rw [he, Nat.add_mod_right]
  exact Nat.mod_eq_of_lt (by omega)

theorem runOps_nil (c : Composer) (s : ImplState) : runOps c [] s = (s, []) := rfl

theorem runOps_cons (c : Composer) (op : Op) (rest : List Op) (s : ImplState) :
    runOps c (op :: rest) s =
      ((runOps c rest (applyOp c op s).1).1,
       (applyOp c op s).2 ++ (runOps c rest (applyOp c op s).1).2) := rfl

theorem runOps_append (c : Composer) (l1 l2 : List Op) :
    ∀ s : ImplState,
      runOps c (l1 ++ l2) s =
        ((runOps c l2 (runOps c l1 s).1).1,
         (runOps c l1 s).2 ++ (runOps c l2 (runOps c l1 s).1).2) := by
  induction l1 with
  | nil => intro s; simp [runOps]
  | cons op rest ih =>
      intro s
      simp only [List.cons_append, runOps_cons, ih, List.append_assoc]

theorem recordResponse_numUnfinishedStreams (idx : Nat)
    (r : Except Status ResumableUploadResponse) (s : ImplState) :
    (recordResponse idx r s).numUnfinishedStreams = s.numUnfinishedStreams := by
  cases r with
  | ok v => rfl
  | error e => cases h : s.res <;> simp [recordResponse, h]

theorem recordResponse_finished (idx : Nat)
    (r : Except Status ResumableUploadResponse) (s : ImplState) :
    (recordResponse idx r s).finished = s.finished := by
  cases r with
  | ok v => rfl
  | error e => cases h : s.res <;> simp [recordResponse, h]

theorem recordResponse_resPromises (idx : Nat)
    (r : Except Status ResumableUploadResponse) (s : ImplState) :
    (recordResponse idx r s).resPromises = s.resPromises := by
  cases r with
  | ok v => rfl
  | error e => cases h : s.res <;> simp [recordResponse, h]

theorem recordResponse_res_ok (idx : Nat) (r : ResumableUploadResponse) (s : ImplState) :
    (recordResponse idx (Except.ok r) s).res = s.res := rfl

theorem recordResponse_res_error (idx : Nat) (e : Status) (s : ImplState) :
    (recordResponse idx (Except.error e) s).res
      = some (s.res.getD (Except.error e)) := by
  cases h : s.res <;> simp [recordResponse, h]

theorem recordResponse_toCompose_ok (idx : Nat) (r : ResumableUploadResponse)
    (s : ImplState) :
    (recordResponse idx (Except.ok r) s).toCompose
      = updateToCompose s.toCompose idx r.payload := rfl

theorem recordResponse_toCompose_error (idx : Nat) (e : Status) (s : ImplState) :
    (recordResponse idx (Except.error e) s).toCompose = s.toCompose := by
  cases h : s.res <;> simp [recordResponse, h]

/-! ### C9: destroying an exhausted shard is a no-op on the coordinator -/

/-- C9: a `ParallelUploadFileShard` destroyed with `left_to_upload_ = 0`
makes no `Fail` call (the destructor guard requires `left_to_upload_ > 0`),
so the coordinator state is untouched even when `Upload()` was never
called. -/
theorem c9_dtor_zero_left_noop :
    ∀ (hasState : Bool) (s : ImplState),
      shardDtorFailCall hasState 0 = none ∧ shardDtor hasState 0 s = s := by
  intro hs s
  have h : shardDtorFailCall hs 0 = none := by simp [shardDtorFailCall]
  exact ⟨h, by simp [shardDtor, h]⟩

/-! ### C3: `CreateStream` overwrites an already recorded first error -/

/-- C3 (evidence of the code bug): after `Fail` records a first error,
a failing `CreateStream` session overwrites `res_` with the new error,
although the line carries the comment `Preserve the first error.` and the
sibling paths (`Fail`, `StreamFinished`) guard the assignment with
`if (!res_)`. -/
theorem c3_create_stream_overwrites_first_error :
    (Fail ⟨StatusCode.kInternal, "first"⟩ initialState).res
        = some (Except.error ⟨StatusCode.kInternal, "first"⟩)
    ∧ (CreateStream (Except.error ⟨StatusCode.kNotFound, "second"⟩)
          (Fail ⟨StatusCode.kInternal, "first"⟩ initialState)).1.res
        = some (Except.error ⟨StatusCode.kNotFound, "second"⟩)
    ∧ (⟨StatusCode.kNotFound, "second"⟩ : Status) ≠ ⟨StatusCode.kInternal, "first"⟩ :=
  ⟨rfl, rfl, by decide⟩

/-! ### C4: failure paths of `ParallelUploadFileShard::Upload` -/

/-- C4 (counterexample to the claim as stated): when the write to the
shard stream fails, `Upload()` returns an internal error but neither
calls `Fail` on the coordinator nor closes the output stream. -/
theorem c4_counterexample :
    (Upload true true (fun _ => true) (fun _ => false)
        (Except.ok ⟨⟨"a", 1⟩⟩) "f" 1 1).ret.code = StatusCode.kInternal
    ∧ (Upload true true (fun _ => true) (fun _ => false)
        (Except.ok ⟨⟨"a", 1⟩⟩) "f" 1 1).failCalled = none
    ∧ (Upload true true (fun _ => true) (fun _ => false)
        (Except.ok ⟨⟨"a", 1⟩⟩) "f" 1 1).closed = false :=
  ⟨rfl, rfl, rfl⟩

/-- C4 (amended): the open-failure, seek-failure and read-failure paths
of `Upload()` each close the output stream and call `Fail` with the
returned status; the write-failure path returns its internal error
directly, with no `Fail` call and no close. -/
theorem c4_failure_paths (openOk seekOk : Bool) (readOk writeOk : Nat → Bool)
    (closeResult : Except Status ResumableUploadResponse) (fileName : String)
    (bufSize left : Nat) :
    (openOk = false →
      (Upload openOk seekOk readOk writeOk closeResult fileName bufSize left).closed = true
      ∧ (Upload openOk seekOk readOk writeOk closeResult fileName bufSize left).failCalled
          = some (Upload openOk seekOk readOk writeOk closeResult fileName bufSize left).ret
      ∧ (Upload openOk seekOk readOk writeOk closeResult fileName bufSize left).ret.code
          = StatusCode.kNotFound)
    ∧ (openOk = true → seekOk = false →
      (Upload openOk seekOk readOk writeOk closeResult fileName bufSize left).closed = true
      ∧ (Upload openOk seekOk readOk writeOk closeResult fileName bufSize left).failCalled
          = some (Upload openOk seekOk readOk writeOk closeResult fileName bufSize left).ret
      ∧ (Upload openOk seekOk readOk writeOk closeResult fileName bufSize left).ret.code
          = StatusCode.kInternal)
    ∧ (openOk = true → seekOk = true →
      (uploadLoopFuel readOk writeOk bufSize (left + 1) 0 left).1.isReadFail = true →
      (Upload openOk seekOk readOk writeOk closeResult fileName bufSize left).closed = true
      ∧ (Upload openOk seekOk readOk writeOk closeResult fileName bufSize left).failCalled
          = some (Upload openOk seekOk readOk writeOk closeResult fileName bufSize left).ret
      ∧ (Upload openOk seekOk readOk writeOk closeResult fileName bufSize left).ret.code
          = StatusCode.kInternal)
    ∧ (openOk = true → seekOk = true →
      (uploadLoopFuel readOk writeOk bufSize (left + 1) 0 left).1.isWriteFail = true →
      (Upload openOk seekOk readOk writeOk closeResult fileName bufSize left).closed = false
      ∧ (Upload openOk seekOk readOk writeOk closeResult fileName bufSize left).failCalled
          = none
      ∧ (Upload openOk seekOk readOk writeOk closeResult fileName bufSize left).ret.code
          = StatusCode.kInternal) := by
  rcases hl : uploadLoopFuel readOk writeOk bufSize (left + 1) 0 left with ⟨ex, rem⟩
  refine ⟨?_, ?_, ?_, ?_⟩
  · intro h; subst h; simp [Upload, uploadFailStep]
  · intro h1 h2; subst h1; subst h2; simp [Upload, uploadFailStep]
  · intro h1 h2 h3; subst h1; subst h2
    cases ex <;> simp_all [Upload, uploadFailStep, LoopExit.isReadFail, hl]
  · intro h1 h2 h3; subst h1; subst h2
    cases ex <;> simp_all [Upload, uploadFailStep, LoopExit.isWriteFail, hl]

/-- C4 witness: the amended theorem applied on the open-failure path and
on the write-failure path. -/
theorem c4_witness :
    ((Upload false true (fun _ => true) (fun _ => true)
        (Except.ok ⟨⟨"a", 1⟩⟩) "f" 1 1).closed = true
      ∧ (Upload false true (fun _ => true) (fun _ => true)
          (Except.ok ⟨⟨"a", 1⟩⟩) "f" 1 1).failCalled
          = some (Upload false true (fun _ => true) (fun _ => true)
              (Except.ok ⟨⟨"a", 1⟩⟩) "f" 1 1).ret
      ∧ (Upload false true (fun _ => true) (fun _ => true)
          (Except.ok ⟨⟨"a", 1⟩⟩) "f" 1 1).ret.code = StatusCode.kNotFound)
    ∧ ((Upload true true (fun _ => true) (fun _ => false)
        (Except.ok ⟨⟨"a", 1⟩⟩) "f" 1 1).closed = false
      ∧ (Upload true true (fun _ => true) (fun _ => false)
          (Except.ok ⟨⟨"a", 1⟩⟩) "f" 1 1).failCalled = none
      ∧ (Upload true true (fun _ => true) (fun _ => false)
          (Except.ok ⟨⟨"a", 1⟩⟩) "f" 1 1).ret.code = StatusCode.kInternal) :=
  ⟨(c4_failure_paths false true (fun _ => true) (fun _ => true)
      (Except.ok ⟨⟨"a", 1⟩⟩) "f" 1 1).1 rfl,
   (c4_failure_paths true true (fun _ => true) (fun _ => false)
      (Except.ok ⟨⟨"a", 1⟩⟩) "f" 1 1).2.2.2 rfl rfl rfl⟩

/-! ### C10: the copy loop terminates for every positive buffer size -/

/-- C10: with `upload_buffer_size_ ≥ 1`, the copy loop of `Upload()`
never exhausts a fuel larger than `left_to_upload_`: each iteration
either exits or strictly decreases `left_to_upload_` by
`min(left, bufSize) ≥ 1`. -/
theorem c10_upload_loop_terminates (bufSize : Nat) (hb : 1 ≤ bufSize)
    (readOk writeOk : Nat → Bool) :
    ∀ fuel left k, left < fuel →
      (uploadLoopFuel readOk writeOk bufSize fuel k left).1 ≠ LoopExit.fuelOut := by
  intro fuel
  induction fuel with
  | zero => intro l k h; omega
  | succ f ih =>
      intro l k h
      by_cases h0 : l = 0
      · simp [uploadLoopFuel, h0]
      · have hmin1 : 1 ≤ min l bufSize := le_min (by omega) hb
        have hmin2 : min l bufSize ≤ l := Nat.min_le_left _ _
        cases hr : readOk k with
        | false => simp [uploadLoopFuel, h0, hr]
        | true =>
            cases hw : writeOk k with
            | false => simp [uploadLoopFuel, h0, hr, hw]
            | true =>
                rw [uploadLoopFuel]
                simp only [h0, hr, hw, if_false, if_neg h0]
                exact ih (l - min l bufSize) (k + 1) (by omega)

/-- C10 witness: the loop with buffer size 1 and 3 bytes left finishes
within fuel 4. -/
theorem c10_witness :
    (uploadLoopFuel (fun _ => true) (fun _ => true) 1 4 0 3).1 ≠ LoopExit.fuelOut :=
  c10_upload_loop_terminates 1 (by decide) (fun _ => true) (fun _ => true) 4 3 0 (by decide)

/-! ### C6: `EagerCleanup` before and after finalization -/

/-- C6: `EagerCleanup` before `finished_` fails with
`kFailedPrecondition` and does not run the deleter; the first call after
finalization runs the deleter exactly once, stores its status and drops
the deleter; every later call returns the stored status without running
the deleter again. -/
theorem c6_eager_cleanup :
    (∀ (s : ImplState) (d : Status), s.finished = false →
        EagerCleanup d s =
          (s,
           ⟨StatusCode.kFailedPrecondition,
            "Attempted to cleanup parallel upload state while it is still in progress"⟩,
           []))
    ∧ (∀ (s : ImplState) (d : Status), s.finished = true → s.deleterPresent = true →
        EagerCleanup d s =
          ({ s with cleanupStatus := d, deleterPresent := false }, d,
           [Event.executeDelete]))
    ∧ (∀ (s : ImplState) (d d2 : Status), s.finished = true → s.deleterPresent = true →
        EagerCleanup d2 (EagerCleanup d s).1 = ((EagerCleanup d s).1, d, [])) := by
  refine ⟨?_, ?_, ?_⟩
  · intro s d h; simp [EagerCleanup, h]
  · intro s d h1 h2; simp [EagerCleanup, h1, h2]
  · intro s d d2 h1 h2; simp [EagerCleanup, h1, h2]

/-- C6 witness: the three cases at concrete states. -/
theorem c6_witness :
    EagerCleanup statusOk initialState =
      (initialState,
       ⟨StatusCode.kFailedPrecondition,
        "Attempted to cleanup parallel upload state while it is still in progress"⟩,
       [])
    ∧ EagerCleanup ⟨StatusCode.kInternal, "d"⟩ { initialState with finished := true } =
        ({ { initialState with finished := true } with
            cleanupStatus := ⟨StatusCode.kInternal, "d"⟩, deleterPresent := false },
         ⟨StatusCode.kInternal, "d"⟩, [Event.executeDelete])
    ∧ EagerCleanup ⟨StatusCode.kNotFound, "d2"⟩
          (EagerCleanup ⟨StatusCode.kInternal, "d"⟩
            { initialState with finished := true }).1 =
        ((EagerCleanup ⟨StatusCode.kInternal, "d"⟩
            { initialState with finished := true }).1,
         ⟨StatusCode.kInternal, "d"⟩, []) :=
  ⟨c6_eager_cleanup.1 initialState statusOk rfl,
   c6_eager_cleanup.2.1 { initialState with finished := true }
     ⟨StatusCode.kInternal, "d"⟩ rfl rfl,
   c6_eager_cleanup.2.2 { initialState with finished := true }
     ⟨StatusCode.kInternal, "d"⟩ ⟨StatusCode.kNotFound, "d2"⟩ rfl rfl⟩

/-! ### C7: `WaitForCompletion` before and after finalization -/

theorem szDec_one : szDec 1 = 0 := by
  have : (1 : Nat) < SIZE_T_MOD := by norm_num [SIZE_T_MOD]
  rw [szDec_eq (by omega) this]

/-- C7: once finished, `WaitForCompletion` returns a ready future with
the recorded result and leaves the state alone; before finalization it
registers a fresh promise; and the finalizing `StreamFinished` (the one
that sees the counter drop to zero) marks `finished_`, fixes one final
value, delivers it to every registered waiter, and every later
`WaitForCompletion` returns that same value. -/
theorem c7_wait_for_completion :
    (∀ (s : ImplState) (v : Except Status ObjectMetadata),
        s.finished = true → s.res = some v →
        WaitForCompletion s = (s, FutureResult.ready v))
    ∧ (∀ s : ImplState, s.finished = false →
        (WaitForCompletion s).2 = FutureResult.pending s.nextPromiseId
        ∧ (WaitForCompletion s).1.resPromises = s.resPromises ++ [s.nextPromiseId]
        ∧ (WaitForCompletion s).1.finished = false)
    ∧ (∀ (c : Composer) (s : ImplState) (idx : Nat)
          (response : Except Status ResumableUploadResponse),
        s.numUnfinishedStreams = 1 →
        (StreamFinished c idx response s).1.finished = true
        ∧ ∃ v, (StreamFinished c idx response s).1.res = some v
            ∧ (∀ id ∈ s.resPromises,
                Event.deliver id v ∈ (StreamFinished c idx response s).2)
            ∧ (WaitForCompletion (StreamFinished c idx response s).1).2
                = FutureResult.ready v) := by
  refine ⟨?_, ?_, ?_⟩
  · intro s v h1 h2; simp [WaitForCompletion, h1, h2]
  · intro s h; simp [WaitForCompletion, h]
  · intro c s idx response h
    have hs1 : ({ s with numUnfinishedStreams := szDec s.numUnfinishedStreams } :
        ImplState).numUnfinishedStreams = 0 := by
      simp [h, szDec_one]
    set s2 := recordResponse idx response
      { s with numUnfinishedStreams := szDec s.numUnfinishedStreams } with hs2
    have hc : s2.numUnfinishedStreams = 0 := by
      rw [hs2, recordResponse_numUnfinishedStreams]; exact hs1
    have hp : s2.resPromises = s.resPromises := by
      rw [hs2, recordResponse_resPromises]
    have hrun : StreamFinished c idx response s = finalizeIfDone c s2 := rfl
    rw [hrun]
    unfold finalizeIfDone
    rw [hc]
    simp only [Nat.lt_irrefl, if_false]
    cases hres : s2.res with
    | none =>
        refine ⟨rfl, c s2.toCompose, rfl, ?_, ?_⟩
        · intro id hid
          exact List.mem_cons_of_mem _ (List.mem_map_of_mem _ (hp ▸ hid))
        · simp [WaitForCompletion]
    | some v =>
        refine ⟨rfl, v, rfl, ?_, ?_⟩
        · intro id hid
          exact List.mem_map_of_mem _ (hp ▸ hid)
        · simp [WaitForCompletion]

/-- C7 witness: the three parts at concrete states. -/
theorem c7_witness :
    (WaitForCompletion
        { initialState with finished := true, res := some (Except.ok ⟨"x", 0⟩) } =
      ({ initialState with finished := true, res := some (Except.ok ⟨"x", 0⟩) },
       FutureResult.ready (Except.ok ⟨"x", 0⟩)))
    ∧ (WaitForCompletion initialState).2 = FutureResult.pending 0
    ∧ ((StreamFinished (fun _ => Except.ok ⟨"y", 1⟩) 0 (Except.ok ⟨⟨"a", 1⟩⟩)
          { initialState with numUnfinishedStreams := 1 }).1.finished = true
        ∧ ∃ v, (StreamFinished (fun _ => Except.ok ⟨"y", 1⟩) 0 (Except.ok ⟨⟨"a", 1⟩⟩)
              { initialState with numUnfinishedStreams := 1 }).1.res = some v
            ∧ (∀ id ∈ ({ initialState with numUnfinishedStreams := 1 } :
                  ImplState).resPromises,
                Event.deliver id v ∈
                  (StreamFinished (fun _ => Except.ok ⟨"y", 1⟩) 0 (Except.ok ⟨⟨"a", 1⟩⟩)
                    { initialState with numUnfinishedStreams := 1 }).2)
            ∧ (WaitForCompletion
                (StreamFinished (fun _ => Except.ok ⟨"y", 1⟩) 0 (Except.ok ⟨⟨"a", 1⟩⟩)
                  { initialState with numUnfinishedStreams := 1 }).1).2
                = FutureResult.ready v) :=
  ⟨c7_wait_for_completion.1 _ (Except.ok ⟨"x", 0⟩) rfl rfl,
   (c7_wait_for_completion.2.1 initialState rfl).1,
   c7_wait_for_completion.2.2 (fun _ => Except.ok ⟨"y", 1⟩)
     { initialState with numUnfinishedStreams := 1 } 0 (Except.ok ⟨⟨"a", 1⟩⟩) rfl⟩

/-! ### C5: destroying a shard with unconsumed bytes fails the upload -/

theorem finalizeIfDone_res_some (c : Composer) (s : ImplState)
    (v : Except Status ObjectMetadata)
    (h : s.res = some v) : (finalizeIfDone c s).1.res = some v := by
  unfold finalizeIfDone
  by_cases hc : 0 < s.numUnfinishedStreams
  · rw [if_pos hc]; exact h
  · rw [if_neg hc, h]

theorem Fail_res_some (st : Status) (s : ImplState) (v : Except Status ObjectMetadata)
    (h : s.res = some v) : (Fail st s).res = some v := by
  unfold Fail; rw [h]; exact h

theorem Fail_res_none (st : Status) (s : ImplState)
    (h : s.res = none) : (Fail st s).res = some (Except.error st) := by
  unfold Fail; rw [h]

theorem WaitForCompletion_res_keep (s : ImplState) :
    (WaitForCompletion s).1.res = s.res := by
  unfold WaitForCompletion
  by_cases hf : s.finished
  · rw [if_pos hf]
  · rw [if_neg hf]

theorem EagerCleanup_res_keep (d : Status) (s : ImplState) :
    (EagerCleanup d s).1.res = s.res := by
  unfold EagerCleanup
  by_cases h1 : s.finished = false
  · rw [if_pos h1]
  · rw [if_neg h1]
    by_cases h2 : s.deleterPresent = true
    · rw [if_pos h2]
    · rw [if_neg h2]

theorem res_error_applyOp (c : Composer) (op : Op) (s : ImplState) (e : Status)
    (h : s.res = some (Except.error e)) :
    ∃ e', (applyOp c op s).1.res = some (Except.error e') := by
  cases op with
  | createStream o =>
      cases o with
      | ok u => exact ⟨e, h⟩
      | error e2 => exact ⟨e2, rfl⟩
  | streamFinished idx resp =>
      refine ⟨e, finalizeIfDone_res_some c _ _ ?_⟩
      cases resp with
      | ok r => exact (recordResponse_res_ok idx r _).trans h
      | error e2 =>
          rw [recordResponse_res_error,
            show ({ s with numUnfinishedStreams := szDec s.numUnfinishedStreams } :
                ImplState).res = s.res from rfl, h]
          rfl
  | fail st => exact ⟨e, Fail_res_some st s _ h⟩
  | wait => exact ⟨e, (WaitForCompletion_res_keep s).trans h⟩
  | eagerCleanup d => exact ⟨e, (EagerCleanup_res_keep d s).trans h⟩
  | shardDestroy hs left =>
      refine ⟨e, ?_⟩
      show (shardDtor hs left s).res = _
      unfold shardDtor
      cases hcall : shardDtorFailCall hs left with
      | none => exact h
      | some st => exact Fail_res_some st s _ h

theorem res_error_runOps (c : Composer) :
    ∀ (ops : List Op) (s : ImplState) (e : Status),
      s.res = some (Except.error e) →
      ∃ e', (runOps c ops s).1.res = some (Except.error e') := by
  intro ops
  induction ops with
  | nil => intro s e h; exact ⟨e, h⟩
  | cons op rest ih =>
      intro s e h
      obtain ⟨e1, h1⟩ := res_error_applyOp c op s e h
      obtain ⟨e2, h2⟩ := ih (applyOp c op s).1 e1 h1
      exact ⟨e2, h2⟩

/-- C5: a `ParallelUploadFileShard` destroyed while it still holds its
state and has `left_to_upload_ > 0` calls `Fail` with the cancellation
status, and afterwards the coordinator's `res_` is a failure and remains
one across every further operation sequence — so the eventual result is
a failure even if all other shards succeed.  (The hypothesis on `s.res`
says the coordinator has not already finished successfully, which cannot
happen while this shard's own stream is still open.) -/
theorem c5_dtor_unconsumed_fails (left : Nat) (s : ImplState)
    (h1 : 0 < left)
    (h2 : s.res = none ∨ ∃ e, s.res = some (Except.error e)) :
    shardDtorFailCall true left = some cancelledStatus
    ∧ ∀ (c : Composer) (ops : List Op), ∃ e,
        (runOps c ops (shardDtor true left s)).1.res = some (Except.error e) := by
  have hcall : shardDtorFailCall true left = some cancelledStatus := by
    simp [shardDtorFailCall, h1]
  refine ⟨hcall, ?_⟩
  intro c ops
  have hres : ∃ e, (shardDtor true left s).res = some (Except.error e) := by
    unfold shardDtor
    rw [hcall]
    cases h2 with
    | inl h => exact ⟨cancelledStatus, Fail_res_none _ s h⟩
    | inr h =>
        obtain ⟨e, he⟩ := h
        exact ⟨e, Fail_res_some _ s _ he⟩
  obtain ⟨e, he⟩ := hres
  exact res_error_runOps c ops _ e he

/-- C5 witness: a shard with 5 unconsumed bytes destroyed over the fresh
coordinator, followed by a further (successful) stream creation. -/
theorem c5_witness :
    shardDtorFailCall true 5 = some cancelledStatus
    ∧ ∃ e, (runOps (fun _ => Except.ok ⟨"z", 0⟩) [Op.createStream (Except.ok ())]
        (shardDtor true 5 initialState)).1.res = some (Except.error e) :=
  ⟨(c5_dtor_unconsumed_fails 5 initialState (by decide) (Or.inl rfl)).1,
   (c5_dtor_unconsumed_fails 5 initialState (by decide) (Or.inl rfl)).2
     (fun _ => Except.ok ⟨"z", 0⟩) [Op.createStream (Except.ok ())]⟩

/-! ### The finish phase: characterization of the completion barrier -/

theorem upd_counter_res (s : ImplState) (x : Nat) :
    ({ s with numUnfinishedStreams := x } : ImplState).res = s.res := rfl

theorem upd_counter_toCompose (s : ImplState) (x : Nat) :
    ({ s with numUnfinishedStreams := x } : ImplState).toCompose = s.toCompose := rfl

theorem upd_counter_resPromises (s : ImplState) (x : Nat) :
    ({ s with numUnfinishedStreams := x } : ImplState).resPromises = s.resPromises := rfl

theorem upd_counter_counter (s : ImplState) (x : Nat) :
    ({ s with numUnfinishedStreams := x } : ImplState).numUnfinishedStreams = x := rfl

theorem orO_none_left (x : Option Status) : orO none x = x := rfl

theorem orO_none_right (x : Option Status) : orO x none = x := by
  cases x <;> rfl

theorem orO_assoc (a b c : Option Status) : orO (orO a b) c = orO a (orO b c) := by
  cases a <;> rfl

theorem firstErrOf_cons (p : Nat × Except Status ResumableUploadResponse)
    (L : List (Nat × Except Status ResumableUploadResponse)) :
    firstErrOf (p :: L) = orO (errOfResp p.2) (firstErrOf L) := rfl

theorem applyTC_nil (tc : List ComposeSourceObject) : applyTC tc [] = tc := rfl

theorem applyTC_cons_ok (tc : List ComposeSourceObject)
    (L : List (Nat × Except Status ResumableUploadResponse))
    (p : Nat × Except Status ResumableUploadResponse) (r : ResumableUploadResponse)
    (hp : p.2 = Except.ok r) :
    applyTC tc (p :: L) = applyTC (updateToCompose tc p.1 r.payload) L := by
  unfold applyTC
  simp only [List.foldl_cons]
  rw [hp]

theorem applyTC_cons_error (tc : List ComposeSourceObject)
    (L : List (Nat × Except Status ResumableUploadResponse))
    (p : Nat × Except Status ResumableUploadResponse) (e : Status)
    (hp : p.2 = Except.error e) :
    applyTC tc (p :: L) = applyTC tc L := by
  unfold applyTC
  simp only [List.foldl_cons]
  rw [hp]

theorem finalizeIfDone_pending (c : Composer) (s : ImplState)
    (h : 0 < s.numUnfinishedStreams) : finalizeIfDone c s = (s, []) := by
  unfold finalizeIfDone
  rw [if_pos h]

theorem finalizeIfDone_done_none (c : Composer) (s : ImplState)
    (hres : s.res = none) (hcount : s.numUnfinishedStreams = 0) :
    finalizeIfDone c s =
      ({ s with res := some (c s.toCompose), finished := true, resPromises := [] },
       Event.composeCall s.toCompose ::
         s.resPromises.map (fun id => Event.deliver id (c s.toCompose))) := by
  unfold finalizeIfDone
  rw [hcount, if_neg (lt_irrefl 0), hres]

theorem finalizeIfDone_done_some (c : Composer) (s : ImplState)
    (v : Except Status ObjectMetadata)
    (hres : s.res = some v) (hcount : s.numUnfinishedStreams = 0) :
    finalizeIfDone c s =
      ({ s with finished := true, resPromises := [] },
       s.resPromises.map (fun id => Event.deliver id v)) := by
  unfold finalizeIfDone
  rw [hcount, if_neg (lt_irrefl 0), hres]

theorem runOps_finish_cons (c : Composer)
    (p : Nat × Except Status ResumableUploadResponse)
    (L : List (Nat × Except Status ResumableUploadResponse)) (s : ImplState) :
    runOps c (finishOps (p :: L)) s =
      ((runOps c (finishOps L) (StreamFinished c p.1 p.2 s).1).1,
       (StreamFinished c p.1 p.2 s).2
         ++ (runOps c (finishOps L) (StreamFinished c p.1 p.2 s).1).2) := rfl

/-- The completion-barrier characterization: starting from a state whose
outstanding-stream counter equals the number of still-pending reports and
whose `res_` holds the error `r0` (or nothing), running all the reports
finishes the coordinator, drains the promises, and either composes (when
no error was recorded by then) or delivers the first recorded error. -/
theorem runFinish_char (c : Composer) :
    ∀ (L : List (Nat × Except Status ResumableUploadResponse)) (s : ImplState)
      (r0 : Option Status),
      s.res = Option.map Except.error r0 →
      s.numUnfinishedStreams = L.length →
      0 < L.length → L.length < SIZE_T_MOD →
      (runOps c (finishOps L) s).1.finished = true
      ∧ (runOps c (finishOps L) s).1.resPromises = []
      ∧ (orO r0 (firstErrOf L) = none →
          (runOps c (finishOps L) s).1.res = some (c (applyTC s.toCompose L))
          ∧ (runOps c (finishOps L) s).2
              = Event.composeCall (applyTC s.toCompose L) ::
                  s.resPromises.map
                    (fun id => Event.deliver id (c (applyTC s.toCompose L))))
      ∧ (∀ e, orO r0 (firstErrOf L) = some e →
          (runOps c (finishOps L) s).1.res = some (Except.error e)
          ∧ (runOps c (finishOps L) s).2
              = s.resPromises.map (fun id => Event.deliver id (Except.error e))) := by
  intro L
  induction L with
  | nil => intro s r0 _ _ h3 _; simp at h3
  | cons p rest ih =>
      intro s r0 hres hcount hpos hlt
      set s2 := recordResponse p.1 p.2
        { s with numUnfinishedStreams := szDec s.numUnfinishedStreams } with hs2
      have hSF : StreamFinished c p.1 p.2 s = finalizeIfDone c s2 := by rw [hs2]; rfl
      have hltsucc : rest.length + 1 < SIZE_T_MOD := by
        rw [List.length_cons] at hlt; exact hlt
      have hs2count : s2.numUnfinishedStreams = rest.length := by
        rw [hs2, recordResponse_numUnfinishedStreams, upd_counter_counter, hcount,
          List.length_cons, szDec_eq (Nat.succ_pos _) hltsucc]
        rfl
      have hprom : s2.resPromises = s.resPromises := by
        rw [hs2, recordResponse_resPromises, upd_counter_resPromises]
      have hs2res : s2.res = Option.map Except.error (orO r0 (errOfResp p.2)) := by
        cases hp : p.2 with
        | ok r =>
            rw [hs2, hp, recordResponse_res_ok, upd_counter_res, hres,
              show errOfResp (Except.ok r) = none from rfl, orO_none_right]
        | error e2 =>
            rw [hs2, hp, recordResponse_res_error, upd_counter_res, hres]
            cases r0 <;> rfl
      have hTC : applyTC s.toCompose (p :: rest) = applyTC s2.toCompose rest := by
        cases hp : p.2 with
        | ok r =>
            rw [applyTC_cons_ok s.toCompose rest p r hp, hs2, hp,
              recordResponse_toCompose_ok, upd_counter_toCompose]
        | error e2 =>
            rw [applyTC_cons_error s.toCompose rest p e2 hp, hs2, hp,
              recordResponse_toCompose_error, upd_counter_toCompose]
      cases rest with
      | nil =>
          have hs2count0 : s2.numUnfinishedStreams = 0 := hs2count
          have hchain : orO r0 (firstErrOf [p]) = orO r0 (errOfResp p.2) := by
            rw [show firstErrOf [p] = orO (errOfResp p.2) none from rfl, orO_none_right]
          rw [runOps_finish_cons, hSF,
            show finishOps ([] : List (Nat × Except Status ResumableUploadResponse))
              = [] from rfl, runOps_nil]
          cases hr0 : orO r0 (errOfResp p.2) with
          | none =>
              have hs2none : s2.res = none := by rw [hs2res, hr0]; rfl
              rw [finalizeIfDone_done_none c s2 hs2none hs2count0]
              dsimp only
              rw [List.append_nil]
              refine ⟨rfl, rfl, fun _ => ?_, fun e he => ?_⟩
              · rw [hTC, applyTC_nil, hprom]
                exact ⟨rfl, rfl⟩
              · rw [hchain, hr0] at he
                exact absurd he (by simp)
          | some e0 =>
              have hs2some : s2.res = some (Except.error e0) := by rw [hs2res, hr0]; rfl
              rw [finalizeIfDone_done_some c s2 (Except.error e0) hs2some hs2count0]
              dsimp only
              rw [List.append_nil]
              refine ⟨rfl, rfl, fun hno => ?_, fun e he => ?_⟩
              · rw [hchain, hr0] at hno
                exact absurd hno (by simp)
              · rw [hchain, hr0] at he
                obtain rfl : e0 = e := Option.some.inj he
                rw [hprom]
                exact ⟨hs2some, rfl⟩
      | cons q rest' =>
          have hpend : finalizeIfDone c s2 = (s2, []) := by
            refine finalizeIfDone_pending c s2 ?_
            rw [hs2count, List.length_cons]
            exact Nat.succ_pos _
          rw [runOps_finish_cons, hSF, hpend]
          dsimp only
          simp only [List.nil_append]
          obtain ⟨ihf, ihp, ihnone, ihsome⟩ :=
            ih s2 (orO r0 (errOfResp p.2)) hs2res hs2count
              (by rw [List.length_cons]; exact Nat.succ_pos _)
              (by rw [List.length_cons] at hltsucc ⊢; omega)
          refine ⟨ihf, ihp, ?_, ?_⟩
          · intro hno
            rw [firstErrOf_cons, ← orO_assoc] at hno
            obtain ⟨hr, hev⟩ := ihnone hno
            exact ⟨by rw [hTC]; exact hr, by rw [hTC, ← hprom]; exact hev⟩
          · intro e he
            rw [firstErrOf_cons, ← orO_assoc] at he
            obtain ⟨hr, hev⟩ := ihsome e he
            exact ⟨hr, by rw [← hprom]; exact hev⟩

/-! ### The creation phase -/

theorem runOps_creates (c : Composer) :
    ∀ (m : Nat) (s : ImplState), s.numUnfinishedStreams + m < SIZE_T_MOD →
      runOps c (creates m) s =
        ({ s with numUnfinishedStreams := s.numUnfinishedStreams + m },
         (List.range m).map (fun j => Event.streamCreated (s.numUnfinishedStreams + j))) := by
  intro m
  induction m with
  | zero => intro s _; rfl
  | succ m ihm =>
      intro s h
      have hcr : creates (m + 1) = Op.createStream (Except.ok ()) :: creates m := by
        unfold creates; rw [List.replicate_succ]
      rw [hcr, runOps_cons]
      have happ : applyOp c (Op.createStream (Except.ok ())) s
          = ({ s with numUnfinishedStreams := szInc s.numUnfinishedStreams },
             [Event.streamCreated s.numUnfinishedStreams]) := rfl
      rw [happ]
      dsimp only
      have hinc : szInc s.numUnfinishedStreams = s.numUnfinishedStreams + 1 :=
        szInc_eq (by omega)
      rw [hinc, ihm { s with numUnfinishedStreams := s.numUnfinishedStreams + 1 }
        (by rw [upd_counter_counter]; omega)]
      dsimp only
      rw [show s.numUnfinishedStreams + 1 + m = s.numUnfinishedStreams + (m + 1) from
        by omega]
      have hev : (List.range (m + 1)).map
            (fun j => Event.streamCreated (s.numUnfinishedStreams + j))
          = Event.streamCreated s.numUnfinishedStreams ::
              (List.range m).map
                (fun j => Event.streamCreated (s.numUnfinishedStreams + 1 + j)) := by
        rw [List.range_succ_eq_map, List.map_cons, List.map_map]
        simp only [Function.comp_def, Nat.add_zero]
        refine congrArg (List.cons _) (List.map_congr_left fun j _ => ?_)
        exact congrArg Event.streamCreated (by omega)
      rw [hev]
      rfl

/-! ### `to_compose_` after an all-successful finish phase -/

theorem vecResize_length (tc : List ComposeSourceObject) (n : Nat) :
    (vecResize tc n).length = n := by
  unfold vecResize
  by_cases h : n ≤ tc.length
  · rw [if_pos h, List.length_take]; omega
  · rw [if_neg h, List.length_append, List.length_replicate]; omega

theorem vecResize_getD (tc : List ComposeSourceObject) (n : Nat)
    (h : tc.length ≤ n) (j : Nat) :
    (vecResize tc n).getD j default = tc.getD j default := by
  unfold vecResize
  by_cases hle : n ≤ tc.length
  · rw [if_pos hle, show n = tc.length from le_antisymm hle h, List.take_length]
  · rw [if_neg hle]
    by_cases hj : j < tc.length
    · rw [List.getD_append _ _ _ _ hj]
    · have h1 : tc.length ≤ j := by omega
      rw [List.getD_append_right _ _ _ _ h1, List.getD_eq_default _ _ h1]
      by_cases h2 : j - tc.length < n - tc.length
      · rw [List.getD_eq_getElem _ _ (by rw [List.length_replicate]; exact h2),
          List.getElem_replicate]
      · rw [List.getD_eq_default _ _ (by rw [List.length_replicate]; omega)]

theorem updateToCompose_length (tc : List ComposeSourceObject) (idx : Nat)
    (m : ObjectMetadata) :
    (updateToCompose tc idx m).length = max tc.length (idx + 1) := by
  unfold updateToCompose
  rw [List.length_set, vecResize_length]

theorem updateToCompose_getD (tc : List ComposeSourceObject) (idx : Nat)
    (m : ObjectMetadata) (j : Nat) :
    (updateToCompose tc idx m).getD j default
      = if j = idx then descrOf m else tc.getD j default := by
  unfold updateToCompose
  have hidx : idx < (vecResize tc (max tc.length (idx + 1))).length := by
    rw [vecResize_length]; omega
  by_cases hji : j = idx
  · subst hji
    rw [if_pos rfl, List.getD_eq_getD_get?, List.get?_set_eq_of_lt _ hidx]
    rfl
  · rw [if_neg hji, List.getD_eq_getD_get?, List.get?_set_ne _ _ (Ne.symm hji),
      ← List.getD_eq_getD_get?]
    exact vecResize_getD tc _ (le_max_left _ _) j

theorem mkFinishes_nil (resp : Nat → Except Status ResumableUploadResponse) :
    mkFinishes resp [] = [] := rfl

theorem mkFinishes_cons (resp : Nat → Except Status ResumableUploadResponse)
    (i : Nat) (rest : List Nat) :
    mkFinishes resp (i :: rest) = (i, resp i) :: mkFinishes resp rest := rfl

theorem applyTC_allOk_getD (meta : Nat → ObjectMetadata) :
    ∀ (order : List Nat) (tc : List ComposeSourceObject) (j : Nat),
      (applyTC tc (mkFinishes (allOkResp meta) order)).getD j default
        = if j ∈ order then descrOf (meta j) else tc.getD j default := by
  intro order
  induction order with
  | nil =>
      intro tc j
      rw [mkFinishes_nil, applyTC_nil, if_neg (List.not_mem_nil j)]
  | cons i rest ihr =>
      intro tc j
      rw [mkFinishes_cons,
        applyTC_cons_ok tc _ (i, allOkResp meta i) ⟨meta i⟩ rfl, ihr]
      dsimp only
      by_cases h1 : j ∈ rest
      · rw [if_pos h1, if_pos (List.mem_cons_of_mem i h1)]
      · rw [if_neg h1, updateToCompose_getD]
        by_cases h2 : j = i
        · subst h2
          rw [if_pos rfl, if_pos (List.mem_cons_self j rest)]
        · rw [if_neg h2,
            if_neg (fun hc => (List.mem_cons.mp hc).elim h2 h1)]

theorem applyTC_allOk_length_lb (meta : Nat → ObjectMetadata) :
    ∀ (order : List Nat) (tc : List ComposeSourceObject),
      tc.length ≤ (applyTC tc (mkFinishes (allOkResp meta) order)).length := by
  intro order
  induction order with
  | nil =>
      intro tc
      rw [mkFinishes_nil, applyTC_nil]
  | cons i rest ihr =>
      intro tc
      rw [mkFinishes_cons, applyTC_cons_ok tc _ (i, allOkResp meta i) ⟨meta i⟩ rfl]
      refine le_trans ?_ (ihr _)
      rw [updateToCompose_length]
      exact le_max_left _ _

theorem applyTC_allOk_mem_length (meta : Nat → ObjectMetadata) :
    ∀ (order : List Nat) (tc : List ComposeSourceObject) (i : Nat),
      i ∈ order →
      i + 1 ≤ (applyTC tc (mkFinishes (allOkResp meta) order)).length := by
  intro order
  induction order with
  | nil => intro tc i hi; exact absurd hi (List.not_mem_nil i)
  | cons a rest ihr =>
      intro tc i hi
      rw [mkFinishes_cons, applyTC_cons_ok tc _ (a, allOkResp meta a) ⟨meta a⟩ rfl]
      rcases List.mem_cons.mp hi with h | h
      · subst h
        refine le_trans ?_ (applyTC_allOk_length_lb meta rest _)
        rw [updateToCompose_length]
        exact le_max_right _ _
      · exact ihr _ i h

theorem applyTC_allOk_length_ub (meta : Nat → ObjectMetadata) :
    ∀ (order : List Nat) (tc : List ComposeSourceObject) (n : Nat),
      (∀ i ∈ order, i + 1 ≤ n) → tc.length ≤ n →
      (applyTC tc (mkFinishes (allOkResp meta) order)).length ≤ n := by
  intro order
  induction order with
  | nil =>
      intro tc n _ h2
      rw [mkFinishes_nil, applyTC_nil]
      exact h2
  | cons a rest ihr =>
      intro tc n h1 h2
      rw [mkFinishes_cons, applyTC_cons_ok tc _ (a, allOkResp meta a) ⟨meta a⟩ rfl]
      refine ihr _ n (fun i hi => h1 i (List.mem_cons_of_mem a hi)) ?_
      rw [updateToCompose_length]
      exact max_le h2 (h1 a (List.mem_cons_self a rest))

theorem applyTC_allOk_range (meta : Nat → ObjectMetadata) (N : Nat)
    (order : List Nat) (hperm : order.Perm (List.range N)) :
    applyTC [] (mkFinishes (allOkResp meta) order)
      = (List.range N).map (fun i => descrOf (meta i)) := by
  have hmem : ∀ j, j ∈ order ↔ j < N := by
    intro j; rw [hperm.mem_iff, List.mem_range]
  have hub : (applyTC [] (mkFinishes (allOkResp meta) order)).length ≤ N :=
    applyTC_allOk_length_ub meta order [] N (fun i hi => (hmem i).mp hi)
      (Nat.zero_le N)
  have hlb : N ≤ (applyTC [] (mkFinishes (allOkResp meta) order)).length := by
    cases N with
    | zero => exact Nat.zero_le _
    | succ M =>
        exact applyTC_allOk_mem_length meta order [] M ((hmem M).mpr (by omega))
  have hlen : (applyTC [] (mkFinishes (allOkResp meta) order)).length = N :=
    le_antisymm hub hlb
  apply List.ext_getElem
  · rw [hlen, List.length_map, List.length_range]
  · intro i h1 h2
    have hiN : i < N := by rw [hlen] at h1; exact h1
    rw [← List.getD_eq_getElem _ default h1, applyTC_allOk_getD,
      if_pos ((hmem i).mpr hiN), List.getElem_map, List.getElem_range]

theorem firstErrOf_allOk (meta : Nat → ObjectMetadata) :
    ∀ order : List Nat, firstErrOf (mkFinishes (allOkResp meta) order) = none := by
  intro order
  induction order with
  | nil => rfl
  | cons i rest ihr =>
      rw [mkFinishes_cons, firstErrOf_cons]
      exact ihr

/-! ### The full scenario: creation, one waiter, all reports -/

theorem runOps_creates_init (c : Composer) (N : Nat) (h : N < SIZE_T_MOD) :
    runOps c (creates N) initialState =
      ({ initialState with numUnfinishedStreams := N },
       (List.range N).map (fun j => Event.streamCreated j)) := by
  have h0 : initialState.numUnfinishedStreams = 0 := rfl
  rw [runOps_creates c N initialState (by rw [h0]; omega)]
  have h1 : initialState.numUnfinishedStreams + N = N := by rw [h0]; omega
  rw [h1]
  refine congrArg _ (List.map_congr_left fun j _ => ?_)
  exact congrArg Event.streamCreated (by rw [h0]; omega)

theorem wait_step_init (c : Composer) (N : Nat) :
    applyOp c Op.wait ({ initialState with numUnfinishedStreams := N }) =
      ({ initialState with
          numUnfinishedStreams := N, resPromises := [0], nextPromiseId := 1 },
       []) := rfl

theorem scenario_run (c : Composer) (N : Nat)
    (resp : Nat → Except Status ResumableUploadResponse) (order : List Nat)
    (hN : N < SIZE_T_MOD) :
    runOps c (scenario N resp order) initialState =
      ((runOps c (finishOps (mkFinishes resp order))
          { initialState with
              numUnfinishedStreams := N, resPromises := [0], nextPromiseId := 1 }).1,
       (List.range N).map (fun j => Event.streamCreated j)
         ++ (runOps c (finishOps (mkFinishes resp order))
              { initialState with
                  numUnfinishedStreams := N, resPromises := [0],
                  nextPromiseId := 1 }).2) := by
  have hsc : scenario N resp order
      = creates N ++ Op.wait :: finishOps (mkFinishes resp order) := rfl
  rw [hsc, runOps_append, runOps_creates_init c N hN]
  dsimp only
  rw [runOps_cons, wait_step_init c N]
  dsimp only
  rw [List.nil_append]

theorem mkFinishes_length (resp : Nat → Except Status ResumableUploadResponse)
    (order : List Nat) : (mkFinishes resp order).length = order.length := by
  have h : mkFinishes resp order = order.map (fun i => (i, resp i)) := rfl
  rw [h, List.length_map]

/-! ### C1: all shards succeed -/

/-- C1: with `N ≥ 1` streams created by `CreateStream` (receiving the
sequential indices `0 … N-1`), one registered waiter, and every shard
reporting success (in an arbitrary order `order`), the whole run emits
the `N` stream creations, exactly one composer invocation — whose
argument is the length-`N` descriptor sequence in shard-index order —
and one delivery of the composer's result to the waiter; the final
`res_` is the composer's result and the coordinator is finished. -/
theorem c1_all_success (N : Nat) (h1 : 1 ≤ N) (h2 : N < SIZE_T_MOD)
    (order : List Nat) (hperm : order.Perm (List.range N))
    (meta : Nat → ObjectMetadata) (c : Composer) :
    (runOps c (scenario N (allOkResp meta) order) initialState).2
        = (List.range N).map (fun j => Event.streamCreated j)
          ++ [Event.composeCall ((List.range N).map (fun i => descrOf (meta i))),
              Event.deliver 0 (c ((List.range N).map (fun i => descrOf (meta i))))]
    ∧ (runOps c (scenario N (allOkResp meta) order) initialState).1.res
        = some (c ((List.range N).map (fun i => descrOf (meta i))))
    ∧ (runOps c (scenario N (allOkResp meta) order) initialState).1.finished
        = true := by
  have hlenL : (mkFinishes (allOkResp meta) order).length = N := by
    rw [mkFinishes_length, hperm.length_eq, List.length_range]
  obtain ⟨hf, hpms, hnone, _⟩ :=
    runFinish_char c (mkFinishes (allOkResp meta) order)
      { initialState with
          numUnfinishedStreams := N, resPromises := [0], nextPromiseId := 1 }
      none rfl
      (by rw [hlenL])
      (by rw [hlenL]; omega)
      (by rw [hlenL]; exact h2)
  obtain ⟨hr, hev⟩ := hnone (firstErrOf_allOk meta order)
  have hTCr : applyTC
      ({ initialState with
          numUnfinishedStreams := N, resPromises := [0],
          nextPromiseId := 1 } : ImplState).toCompose
      (mkFinishes (allOkResp meta) order)
      = (List.range N).map (fun i => descrOf (meta i)) :=
    applyTC_allOk_range meta N order hperm
  rw [scenario_run c N (allOkResp meta) order h2]
  dsimp only
  refine ⟨?_, ?_, hf⟩
  · rw [hev]
    simp only [hTCr]
    rfl
  · rw [hr, hTCr]

/-- C1 witness: two shards finishing in reverse order. -/
theorem c1_witness :
    (runOps (fun l => Except.ok ⟨"final", Int.ofNat l.length⟩)
        (scenario 2 (allOkResp (fun i => ⟨"obj", Int.ofNat i⟩)) [1, 0])
        initialState).1.finished = true
    ∧ (runOps (fun l => Except.ok ⟨"final", Int.ofNat l.length⟩)
        (scenario 2 (allOkResp (fun i => ⟨"obj", Int.ofNat i⟩)) [1, 0])
        initialState).1.res
      = some ((fun l => Except.ok (⟨"final", Int.ofNat l.length⟩ : ObjectMetadata))
          ((List.range 2).map
            (fun i => descrOf ((fun i => (⟨"obj", Int.ofNat i⟩ : ObjectMetadata)) i)))) :=
  ⟨(c1_all_success 2 (by decide) (by norm_num [SIZE_T_MOD]) [1, 0] (by decide)
      (fun i => ⟨"obj", Int.ofNat i⟩)
      (fun l => Except.ok ⟨"final", Int.ofNat l.length⟩)).2.2,
   (c1_all_success 2 (by decide) (by norm_num [SIZE_T_MOD]) [1, 0] (by decide)
      (fun i => ⟨"obj", Int.ofNat i⟩)
      (fun l => Except.ok ⟨"final", Int.ofNat l.length⟩)).2.1⟩

/-! ### C2: compose happens iff no error is recorded by the last report -/

theorem filter_compose_deliver_nil (ids : List Nat) (v : Except Status ObjectMetadata) :
    (ids.map (fun id => Event.deliver id v)).filter Event.isCompose = [] := by
  induction ids with
  | nil => rfl
  | cons a rest ihr =>
      rw [List.map_cons, List.filter_cons,
        show Event.isCompose (Event.deliver a v) = false from rfl]
      simp only [Bool.false_eq_true, if_false]
      exact ihr

theorem filter_compose_streams_nil (l : List Nat) :
    (l.map (fun j => Event.streamCreated j)).filter Event.isCompose = [] := by
  induction l with
  | nil => rfl
  | cons a rest ihr =>
      rw [List.map_cons, List.filter_cons,
        show Event.isCompose (Event.streamCreated a) = false from rfl]
      simp only [Bool.false_eq_true, if_false]
      exact ihr

theorem firstErrOf_take_some :
    ∀ (L : List (Nat × Except Status ResumableUploadResponse)) (n : Nat) (e : Status),
      firstErrOf (L.take n) = some e → firstErrOf L = some e := by
  intro L
  induction L with
  | nil =>
      intro n e h
      rw [List.take_nil] at h
      exact Option.noConfusion h
  | cons p rest ihr =>
      intro n e h
      cases n with
      | zero =>
          rw [List.take_zero] at h
          exact Option.noConfusion h
      | succ m =>
          rw [List.take_succ_cons, firstErrOf_cons] at h
          rw [firstErrOf_cons]
          cases hp : errOfResp p.2 with
          | some x => rw [hp] at h; exact h
          | none => rw [hp] at h; exact ihr m e h

/-- C2: (a) at the `StreamFinished` call that takes the last outstanding
stream (counter 1 → 0), the composer is invoked iff `res_` is still
unset after that report is recorded; (b) in a whole run in which some
shard reports a failure before the last report, the composer is never
invoked, the final `res_` is the first-reported failure, and that
failure is what the waiter receives. -/
theorem c2_compose_iff_no_error :
    (∀ (c : Composer) (s : ImplState) (idx : Nat)
        (response : Except Status ResumableUploadResponse),
      s.numUnfinishedStreams = 1 →
      (((StreamFinished c idx response s).2.filter Event.isCompose ≠ [])
        ↔ (recordResponse idx response s).res = none))
    ∧ (∀ (N : Nat) (order : List Nat)
        (resp : Nat → Except Status ResumableUploadResponse) (c : Composer)
        (e : Status),
      1 ≤ N → N < SIZE_T_MOD → order.Perm (List.range N) →
      firstErrOf ((mkFinishes resp order).take (N - 1)) = some e →
      (runOps c (scenario N resp order) initialState).2.filter Event.isCompose = []
      ∧ (runOps c (scenario N resp order) initialState).1.res
          = some (Except.error e)
      ∧ Event.deliver 0 (Except.error e)
          ∈ (runOps c (scenario N resp order) initialState).2) := by
  constructor
  · intro c s idx response h
    have hreseq : (recordResponse idx response
        { s with numUnfinishedStreams := szDec s.numUnfinishedStreams }).res
          = (recordResponse idx response s).res := by
      cases response with
      | ok r => rw [recordResponse_res_ok, recordResponse_res_ok, upd_counter_res]
      | error e2 =>
          rw [recordResponse_res_error, recordResponse_res_error, upd_counter_res]
    set s2 := recordResponse idx response
      { s with numUnfinishedStreams := szDec s.numUnfinishedStreams } with hs2
    have hc0 : s2.numUnfinishedStreams = 0 := by
      rw [hs2, recordResponse_numUnfinishedStreams, upd_counter_counter, h, szDec_one]
    have hSF : StreamFinished c idx response s = finalizeIfDone c s2 := by
      rw [hs2]; rfl
    rw [hSF, ← hreseq]
    cases hres : s2.res with
    | none =>
        rw [finalizeIfDone_done_none c s2 hres hc0]
        dsimp only
        constructor
        · intro _; rfl
        · intro _
          rw [List.filter_cons,
            show Event.isCompose (Event.composeCall s2.toCompose) = true from rfl]
          simp only [if_true]
          exact List.cons_ne_nil _ _
    | some v =>
        rw [finalizeIfDone_done_some c s2 v hres hc0]
        dsimp only
        rw [filter_compose_deliver_nil]
        constructor
        · intro hne; exact absurd rfl hne
        · intro hcon; exact Option.noConfusion hcon
  · intro N order resp c e hN1 hN2 hperm htake
    have hlenL : (mkFinishes resp order).length = N := by
      rw [mkFinishes_length, hperm.length_eq, List.length_range]
    have hfe : firstErrOf (mkFinishes resp order) = some e :=
      firstErrOf_take_some _ _ _ htake
    obtain ⟨hf, hpms, _, hsome⟩ :=
      runFinish_char c (mkFinishes resp order)
        { initialState with
            numUnfinishedStreams := N, resPromises := [0], nextPromiseId := 1 }
        none rfl
        (by rw [hlenL])
        (by rw [hlenL]; omega)
        (by rw [hlenL]; exact hN2)
    obtain ⟨hr, hev⟩ := hsome e hfe
    rw [scenario_run c N resp order hN2]
    dsimp only
    refine ⟨?_, hr, ?_⟩
    · rw [hev, List.filter_append, filter_compose_streams_nil,
        filter_compose_deliver_nil]
      rfl
    · rw [hev]
      exact List.mem_append_right _
        (show Event.deliver 0 (Except.error e)
            ∈ [Event.deliver 0 (Except.error e)] from List.mem_singleton_self _)

/-- C2 witness: the per-call iff at a one-outstanding-stream state with a
failing report, and a two-shard run whose first report fails. -/
theorem c2_witness :
    (((StreamFinished (fun _ => Except.ok ⟨"f", 0⟩) 0
          (Except.error ⟨StatusCode.kInternal, "boom"⟩)
          { initialState with numUnfinishedStreams := 1 }).2.filter
            Event.isCompose ≠ [])
      ↔ (recordResponse 0 (Except.error ⟨StatusCode.kInternal, "boom"⟩)
          { initialState with numUnfinishedStreams := 1 }).res = none)
    ∧ (runOps (fun _ => Except.ok ⟨"f", 0⟩)
        (scenario 2
          (fun i => if i = 0 then Except.error ⟨StatusCode.kInternal, "boom"⟩
            else Except.ok ⟨⟨"a", 1⟩⟩)
          [0, 1]) initialState).1.res
      = some (Except.error ⟨StatusCode.kInternal, "boom"⟩) :=
  ⟨c2_compose_iff_no_error.1 (fun _ => Except.ok ⟨"f", 0⟩)
      { initialState with numUnfinishedStreams := 1 } 0
      (Except.error ⟨StatusCode.kInternal, "boom"⟩) rfl,
   (c2_compose_iff_no_error.2 2 [0, 1]
      (fun i => if i = 0 then Except.error ⟨StatusCode.kInternal, "boom"⟩
        else Except.ok ⟨⟨"a", 1⟩⟩)
      (fun _ => Except.ok ⟨"f", 0⟩) ⟨StatusCode.kInternal, "boom"⟩
      (by decide) (by norm_num [SIZE_T_MOD]) (by decide) (by decide)).2.1⟩

/-! ### C8: the unfinished-stream counter -/

theorem Fail_counter (st : Status) (s : ImplState) :
    (Fail st s).numUnfinishedStreams = s.numUnfinishedStreams := by
  unfold Fail
  cases hr : s.res <;> rfl

theorem WaitForCompletion_counter (s : ImplState) :
    (WaitForCompletion s).1.numUnfinishedStreams = s.numUnfinishedStreams := by
  unfold WaitForCompletion
  by_cases hf : s.finished
  · rw [if_pos hf]
  · rw [if_neg hf]

theorem EagerCleanup_counter (d : Status) (s : ImplState) :
    (EagerCleanup d s).1.numUnfinishedStreams = s.numUnfinishedStreams := by
  unfold EagerCleanup
  by_cases h1 : s.finished = false
  · rw [if_pos h1]
  · rw [if_neg h1]
    by_cases h2 : s.deleterPresent = true
    · rw [if_pos h2]
    · rw [if_neg h2]

theorem shardDtor_counter (hs : Bool) (left : Nat) (s : ImplState) :
    (shardDtor hs left s).numUnfinishedStreams = s.numUnfinishedStreams := by
  unfold shardDtor
  cases hcall : shardDtorFailCall hs left with
  | none => rfl
  | some st => exact Fail_counter st s

theorem finalizeIfDone_counter (c : Composer) (s : ImplState) :
    (finalizeIfDone c s).1.numUnfinishedStreams = s.numUnfinishedStreams := by
  unfold finalizeIfDone
  by_cases hc : 0 < s.numUnfinishedStreams
  · rw [if_pos hc]
  · rw [if_neg hc]
    cases hr : s.res <;> rfl

theorem StreamFinished_counter (c : Composer) (idx : Nat)
    (r : Except Status ResumableUploadResponse) (s : ImplState) :
    (StreamFinished c idx r s).1.numUnfinishedStreams
      = szDec s.numUnfinishedStreams := by
  show (finalizeIfDone c _).1.numUnfinishedStreams = _
  rw [finalizeIfDone_counter, recordResponse_numUnfinishedStreams, upd_counter_counter]

theorem countP_take_le (p : Op → Bool) (l : List Op) (n : Nat) :
    (l.take n).countP p ≤ l.countP p := by
  conv_rhs => rw [← List.take_append_drop n l]
  rw [List.countP_append]
  omega

theorem countSF_cons (op : Op) (l : List Op) :
    countSF (op :: l) = countSF l + (if isStreamFinishedOp op then 1 else 0) :=
  List.countP_cons _ _ _

theorem countCSOk_cons (op : Op) (l : List Op) :
    countCSOk (op :: l) = countCSOk l + (if isCreateOkOp op then 1 else 0) :=
  List.countP_cons _ _ _

/-- A successful `CreateStream` post-increments the counter. -/
theorem applyOp_counter_cs (c : Composer) (op : Op) (s : ImplState)
    (hcs : isCreateOkOp op = true) :
    (applyOp c op s).1.numUnfinishedStreams = szInc s.numUnfinishedStreams := by
  cases op with
  | createStream o =>
      cases o with
      | ok u => rfl
      | error e => exact Bool.noConfusion hcs
  | streamFinished idx r => exact Bool.noConfusion hcs
  | fail st => exact Bool.noConfusion hcs
  | wait => exact Bool.noConfusion hcs
  | eagerCleanup d => exact Bool.noConfusion hcs
  | shardDestroy hs left => exact Bool.noConfusion hcs

/-- `StreamFinished` decrements the counter. -/
theorem applyOp_counter_sfop (c : Composer) (op : Op) (s : ImplState)
    (hsf : isStreamFinishedOp op = true) :
    (applyOp c op s).1.numUnfinishedStreams = szDec s.numUnfinishedStreams := by
  cases op with
  | createStream o =>
      cases o with
      | ok u => exact Bool.noConfusion hsf
      | error e => exact Bool.noConfusion hsf
  | streamFinished idx r => exact StreamFinished_counter c idx r s
  | fail st => exact Bool.noConfusion hsf
  | wait => exact Bool.noConfusion hsf
  | eagerCleanup d => exact Bool.noConfusion hsf
  | shardDestroy hs left => exact Bool.noConfusion hsf

/-- Every other operation leaves the counter alone. -/
theorem applyOp_counter_other (c : Composer) (op : Op) (s : ImplState)
    (hcs : isCreateOkOp op = false) (hsf : isStreamFinishedOp op = false) :
    (applyOp c op s).1.numUnfinishedStreams = s.numUnfinishedStreams := by
  cases op with
  | createStream o =>
      cases o with
      | ok u => exact Bool.noConfusion hcs
      | error e => rfl
  | streamFinished idx r => exact Bool.noConfusion hsf
  | fail st => exact Fail_counter st s
  | wait => exact WaitForCompletion_counter s
  | eagerCleanup d => exact EagerCleanup_counter d s
  | shardDestroy hs left => exact shardDtor_counter hs left s

/-- Counter bookkeeping over a run: when every prefix has at least as
many successful creations (plus the starting counter) as finishes, the
counter tracks creations minus finishes exactly, with no wrap-around. -/
theorem counter_formula (c : Composer) :
    ∀ (ops : List Op) (s : ImplState),
      s.numUnfinishedStreams + countCSOk ops < SIZE_T_MOD →
      (∀ n, n ≤ ops.length →
        countSF (ops.take n) ≤ s.numUnfinishedStreams + countCSOk (ops.take n)) →
      (runOps c ops s).1.numUnfinishedStreams
        = s.numUnfinishedStreams + countCSOk ops - countSF ops := by
  intro ops
  induction ops with
  | nil =>
      intro s _ _
      show s.numUnfinishedStreams = _
      rw [show countCSOk [] = 0 from rfl, show countSF [] = 0 from rfl]
      omega
  | cons op rest ihop =>
      intro s hbound hwf
      rw [runOps_cons]
      dsimp only
      have hone := hwf 1 (by rw [List.length_cons]; omega)
      rw [show (op :: rest).take 1 = [op] from rfl, countSF_cons, countCSOk_cons,
        show countSF [] = 0 from rfl, show countCSOk [] = 0 from rfl] at hone
      have hbound' := hbound
      rw [countCSOk_cons] at hbound'
      by_cases hcs : isCreateOkOp op = true
      · -- successful CreateStream: the counter goes up by one
        have hsf0 : isStreamFinishedOp op = false := by
          cases op with
          | createStream o => rfl
          | streamFinished idx r => exact Bool.noConfusion hcs
          | fail st => rfl
          | wait => rfl
          | eagerCleanup d => rfl
          | shardDestroy hs left => rfl
        rw [if_pos hcs] at hbound'
        have hcnt1 : (applyOp c op s).1.numUnfinishedStreams
            = s.numUnfinishedStreams + 1 :=
          (applyOp_counter_cs c op s hcs).trans (szInc_eq (by omega))
        rw [ihop (applyOp c op s).1
          (by rw [hcnt1]; omega)
          (by
            intro n hn
            have hstep := hwf (n + 1) (by rw [List.length_cons]; omega)
            rw [List.take_succ_cons, countSF_cons, countCSOk_cons, if_pos hcs]
              at hstep
            simp only [hsf0, Bool.false_eq_true, if_false] at hstep
            rw [hcnt1]
            omega)]
        rw [hcnt1, countCSOk_cons, countSF_cons, if_pos hcs]
        simp only [hsf0, Bool.false_eq_true, if_false]
        omega
      · have hcsf : isCreateOkOp op = false := by
          cases hb : isCreateOkOp op with
          | false => rfl
          | true => exact absurd hb hcs
        by_cases hsf : isStreamFinishedOp op = true
        · -- StreamFinished: the counter goes down by one, and cannot wrap
          rw [if_pos hsf, if_neg hcs] at hone
          rw [if_neg hcs] at hbound'
          have hcnt1 : (applyOp c op s).1.numUnfinishedStreams
              = s.numUnfinishedStreams - 1 :=
            (applyOp_counter_sfop c op s hsf).trans
              (szDec_eq (by omega) (by omega))
          rw [ihop (applyOp c op s).1
            (by rw [hcnt1]; omega)
            (by
              intro n hn
              have hstep := hwf (n + 1) (by rw [List.length_cons]; omega)
              rw [List.take_succ_cons, countSF_cons, countCSOk_cons, if_pos hsf,
                if_neg hcs] at hstep
              rw [hcnt1]
              omega)]
          rw [hcnt1, countCSOk_cons, countSF_cons, if_pos hsf, if_neg hcs]
          omega
        · -- all other operations leave the counter alone
          have hsff : isStreamFinishedOp op = false := by
            cases hb : isStreamFinishedOp op with
            | false => rfl
            | true => exact absurd hb hsf
          rw [if_neg hcs] at hbound'
          have hcnt1 : (applyOp c op s).1.numUnfinishedStreams
              = s.numUnfinishedStreams :=
            applyOp_counter_other c op s hcsf hsff
          rw [ihop (applyOp c op s).1
            (by rw [hcnt1]; omega)
            (by
              intro n hn
              have hstep := hwf (n + 1) (by rw [List.length_cons]; omega)
              rw [List.take_succ_cons, countSF_cons, countCSOk_cons, if_neg hcs,
                if_neg hsf] at hstep
              rw [hcnt1]
              omega)]
          rw [hcnt1, countCSOk_cons, countSF_cons, if_neg hcs, if_neg hsf]
          omega

theorem take_succ_of_lt (l : List Op) (n : Nat) (h : n < l.length) :
    l.take (n + 1) = l.take n ++ [l.getD n Op.wait] := by
  rw [List.take_succ]
  congr 1
  rw [List.getD_eq_getElem l Op.wait h, List.getElem?_eq_getElem h]
  rfl

/-- C8 (counterexample to the claim as stated): a successful
`CreateStream` increases `num_unfinished_streams_` from 0 to 1, so the
counter is not monotonically non-increasing across every sequence of
coordinator operations. -/
theorem c8_counterexample :
    initialState.numUnfinishedStreams = 0
    ∧ (runOps (fun _ => Except.error ⟨StatusCode.kInternal, "x"⟩)
        [Op.createStream (Except.ok ())] initialState).1.numUnfinishedStreams
        = 1 := by
  constructor
  · rfl
  · decide

/-- C8 (amended): over every operation sequence in which each prefix has
at least as many successful `CreateStream`s as `StreamFinished`s, the
counter equals (successful creations − finishes) at every prefix — in
particular it never goes negative (never wraps the unsigned `size_t`) —
and it is non-increasing across every operation other than a successful
`CreateStream`. -/
theorem c8_amended_counter (c : Composer) (ops : List Op)
    (hwf : ∀ n, n ≤ ops.length → countSF (ops.take n) ≤ countCSOk (ops.take n))
    (hbound : countCSOk ops < SIZE_T_MOD) :
    (∀ n, n ≤ ops.length →
      (runOps c (ops.take n) initialState).1.numUnfinishedStreams
        = countCSOk (ops.take n) - countSF (ops.take n))
    ∧ (∀ n, n < ops.length → isCreateOkOp (ops.getD n Op.wait) = false →
      (runOps c (ops.take (n + 1)) initialState).1.numUnfinishedStreams
        ≤ (runOps c (ops.take n) initialState).1.numUnfinishedStreams) := by
  have h0 : initialState.numUnfinishedStreams = 0 := rfl
  have hpart1 : ∀ n, n ≤ ops.length →
      (runOps c (ops.take n) initialState).1.numUnfinishedStreams
        = countCSOk (ops.take n) - countSF (ops.take n) := by
    intro n hn
    have htle := countP_take_le isCreateOkOp ops n
    have hform := counter_formula c (ops.take n) initialState
      (by
        rw [h0]
        have hb2 : ops.countP isCreateOkOp < SIZE_T_MOD := hbound
        show 0 + (ops.take n).countP isCreateOkOp < SIZE_T_MOD
        omega)
      (by
        intro m hm
        rw [List.length_take] at hm
        rw [List.take_take, show min m n = m from by omega, h0]
        have := hwf m (by omega)
        omega)
    rw [hform, h0]
    omega
  refine ⟨hpart1, ?_⟩
  intro n hn hop
  have e1 := hpart1 n (le_of_lt hn)
  have e2 := hpart1 (n + 1) (by omega)
  rw [e1, e2, take_succ_of_lt ops n hn]
  have hA : countCSOk (ops.take n ++ [ops.getD n Op.wait])
      = countCSOk (ops.take n) + countCSOk [ops.getD n Op.wait] :=
    List.countP_append _ _ _
  have hB : countSF (ops.take n ++ [ops.getD n Op.wait])
      = countSF (ops.take n) + countSF [ops.getD n Op.wait] :=
    List.countP_append _ _ _
  have hA0 : countCSOk [ops.getD n Op.wait] = 0 := by
    rw [countCSOk_cons, show countCSOk [] = 0 from rfl, hop]
    simp only [Bool.false_eq_true, if_false]
  rw [hA, hB, hA0]
  omega

/-- C8 witness: one creation followed by one finish. -/
theorem c8_witness :
    (runOps (fun _ => Except.error ⟨StatusCode.kInternal, "x"⟩)
        ([Op.createStream (Except.ok ()),
          Op.streamFinished 0 (Except.ok ⟨⟨"a", 1⟩⟩)].take 2)
        initialState).1.numUnfinishedStreams
      = countCSOk ([Op.createStream (Except.ok ()),
          Op.streamFinished 0 (Except.ok ⟨⟨"a", 1⟩⟩)].take 2)
        - countSF ([Op.createStream (Except.ok ()),
            Op.streamFinished 0 (Except.ok ⟨⟨"a", 1⟩⟩)].take 2) :=
  (c8_amended_counter (fun _ => Except.error ⟨StatusCode.kInternal, "x"⟩)
      [Op.createStream (Except.ok ()), Op.streamFinished 0 (Except.ok ⟨⟨"a", 1⟩⟩)]
      (by decide) (by decide)).1 2 (by decide)

end PUpload
